import Mathlib

/-!
# Verification of the crawl4AI-agent ingestion pipeline

A shallow embedding of `src/crawl_pydantic_ai_docs.py` (text chunker,
chunk enrichment, CLI/main control flow), with theorems settling the
frozen claims about that code.

Python strings are modelled as `List Char`; string slices `text[a:b]`
become `take`/`drop`; the `while` loop of `chunk_text` becomes a
well-founded recursion on the remaining length.  The Python float
comparison `k > chunk_size * 0.3` (both `k` and `chunk_size` are
nonnegative integers) is modelled as `3 * chunk_size < 10 * k`: the
IEEE-754 double nearest to `chunk_size * 0.3` differs from the rational
`3 * chunk_size / 10` by a relative error below `1.5e-16`, so for every
`chunk_size` below `2 ^ 50` no integer lies between the two and the two
comparisons agree.
-/

namespace Crawl

/-- Python `str.strip()` whitespace test, restricted to the ASCII
whitespace characters (space, tab, newline, carriage return, vertical
tab, form feed); the inputs in this pipeline are markdown text. -/
def isPySpace (c : Char) : Bool :=
  c = ' ' || c = '\t' || c = '\n' || c = '\r' || c = Char.ofNat 11 || c = Char.ofNat 12

/-- Python `text[a:b]` for natural indices (`a ≤ b`; clamps at the ends). -/
def pySlice (text : List Char) (a b : Nat) : List Char :=
  (text.drop a).take (b - a)

/-- Python `s.strip()`: remove leading and trailing whitespace. -/
def pyStrip (s : List Char) : List Char :=
  (((s.dropWhile isPySpace).reverse.dropWhile isPySpace)).reverse

/-- `pat` occurs in `s` starting at index `i` (the slice of length
`pat.length` starting at `i` equals `pat`; an occurrence must fit). -/
def occursAt (pat s : List Char) (i : Nat) : Bool :=
  (s.drop i).take pat.length = pat

/-- Python `s.rfind(pat)` for nonempty `pat`, with `none` for the `-1`
sentinel: the largest index at which `pat` occurs in `s`. -/
def rfindPos (pat s : List Char) : Option Nat :=
  ((List.range (s.length + 1)).filter (fun i => occursAt pat s i)).getLast?

/-- The code-fence marker of `chunk_text` (Python literal of line 55). -/
def fenceP : List Char := "```".toList

/-- The paragraph-break marker of `chunk_text` (Python literal of line 60). -/
def paraP : List Char := "\n\n".toList

/-- The sentence-break marker of `chunk_text` (Python literal of line 67). -/
def sentP : List Char := ". ".toList

/-- The `elif` chain of `chunk_text` lines 59-71: the paragraph branch is
entered whenever `'\n\n' in chunk` (i.e. `rfindPos` is `some`), and only
if it is not does the sentence branch run; a branch whose last occurrence
fails the 30% threshold leaves `end` at `start + size`. -/
def paraSentEnd (size start : Nat) (chunk : List Char) : Nat :=
  match rfindPos paraP chunk with
  | some last_break =>
      if 3 * size < 10 * last_break then start + last_break else start + size
  | none =>
      match rfindPos sentP chunk with
      | some last_period =>
          if 3 * size < 10 * last_period then start + last_period + 1 else start + size
      | none => start + size

/-- The `end` computed by one non-final iteration of `chunk_text`
(lines 46-71): code-fence rule first (line 56: found *and* past 30% of
`size`), otherwise the paragraph/sentence `elif` chain. -/
def chunkEnd (text : List Char) (size start : Nat) : Nat :=
  let chunk := pySlice text start (start + size)
  match rfindPos fenceP chunk with
  | some code_block =>
      if 3 * size < 10 * code_block then start + code_block else paraSentEnd size start chunk
  | none => paraSentEnd size start chunk

/-- `true` iff the code-fence rule of line 56 fires
(`code_block != -1 and code_block > chunk_size * 0.3`). -/
def fenceQualifies (size : Nat) (chunk : List Char) : Bool :=
  match rfindPos fenceP chunk with
  | some code_block => 3 * size < 10 * code_block
  | none => false

/-- The `while` loop of `chunk_text` (lines 44-79), from offset `start`:
if the candidate end `start + size` reaches the text length, the stripped
remainder is appended unconditionally (lines 49-51); otherwise the
boundary-adjusted chunk is appended only if nonempty after stripping
(lines 73-76) and the loop continues at `max (start + 1) end` (line 79). -/
def chunkLoop (text : List Char) (size : Nat) (start : Nat) : List (List Char) :=
  if h : start < text.length then
    if text.length ≤ start + size then
      [pyStrip (text.drop start)]
    else
      let e := chunkEnd text size start
      let c := pyStrip (pySlice text start e)
      let rest := chunkLoop text size (max (start + 1) e)
      if c = [] then rest else c :: rest
  else []
termination_by text.length - start
decreasing_by
  have h1 : start + 1 ≤ max (start + 1) (chunkEnd text size start) := le_max_left _ _
  omega

/-- Python `chunk_text(text, chunk_size)` (lines 38-81). -/
def chunk_text (text : List Char) (chunk_size : Nat) : List (List Char) :=
  chunkLoop text chunk_size 0

/-- The `(chunk_number, chunk)` pairs produced by the
`for i, chunk in enumerate(chunks)` loop of `process_and_store_document`
(lines 176-177), which calls `chunk_text` (with its default size 5000 in
the Python; the size is a parameter here). -/
def ingest_pairs (markdown : List Char) (size : Nat) : List (Nat × List Char) :=
  (chunk_text markdown size).enum

/-- Outcome of one call to the title/summary completion backend as seen
by `get_title_and_summary` (lines 91-103): either some exception was
raised inside the `try` (network error, or `json.loads` parse error), or
the response parsed to a JSON object, modelled as an insertion-ordered
association list (string values suffice for the claims). -/
inductive CompletionResult where
  | fail
  | ok (obj : List (String × String))

/-- Outcome of one call to the embedding backend as seen by
`get_embedding` (lines 105-115); vector components are modelled as
integers (the claims only concern the zero vector). -/
inductive EmbeddingResult where
  | fail
  | ok (v : List Int)

/-- `get_title_and_summary` (lines 83-103): on any exception it returns
the placeholder dict (line 103), otherwise the parsed JSON object. -/
def get_title_and_summary : CompletionResult → List (String × String)
  | .fail => [("title", "Error processing title"), ("summary", "Error processing summary")]
  | .ok obj => obj

/-- `get_embedding` (lines 105-115): on any exception it returns the
zero vector `[0] * 1536` (line 115). -/
def get_embedding : EmbeddingResult → List Int
  | .fail => List.replicate 1536 0
  | .ok v => v

/-- The metadata dict built at lines 129-134 (`timestamp` is the
`datetime.now` instant, passed in as a parameter). -/
structure Metadata where
  source : String
  url : String
  chunk_number : Nat
  timestamp : String
deriving DecidableEq, Repr

/-- The `ProcessedChunk` dataclass (lines 28-36). -/
structure ProcessedChunk where
  url : String
  chunk_number : Nat
  title : String
  summary : String
  content : String
  metadata : Metadata
  embedding : List Int
deriving DecidableEq, Repr

/-- `process_chunk` (lines 117-139).  Line 120 is
`title, summary = await get_title_and_summary(chunk, url)`: Python tuple
unpacking *iterates* the returned dict, which yields its KEYS in
insertion order.  A dict with exactly two entries therefore unpacks to
its two key strings; any other size raises `ValueError`, which the
`except` of line 137 converts to `return None` (line 139).  (A parsed
response that is not an object also fails the unpack and likewise yields
`None`; the model's `ok` case covers the object shape the backend is
asked for.) -/
def process_chunk (cr : CompletionResult) (er : EmbeddingResult)
    (chunk : String) (chunk_number : Nat) (url timestamp : String) :
    Option ProcessedChunk :=
  match get_title_and_summary cr with
  | [(title, _), (summary, _)] =>
      some { url := url
             chunk_number := chunk_number
             title := title
             summary := summary
             content := chunk
             metadata := { source := "python_uv_docs"
                           url := url
                           chunk_number := chunk_number
                           timestamp := timestamp }
             embedding := get_embedding er }
  | _ => none

/-- The two lines printed by `get_table_name` when the argument is
missing (lines 144-145). -/
def usageLines : List String :=
  ["Please provide the table name as an argument",
   "Usage: python crawl_pydantic_ai_docs.py <table_name>"]

/-- `get_table_name` (lines 141-147): fewer than two `argv` entries ⇒
print usage and `sys.exit(1)`; else return `argv[1]`. -/
def get_table_name (argv : List String) : Except (List String × Nat) String :=
  if argv.length < 2 then .error (usageLines, 1) else .ok (argv.getD 1 "")

/-- Observable outcome of one run of `main` (lines 241-252): process
exit status, lines printed before crawling, and whether
`crawl_parallel` was started. -/
structure MainOutcome where
  exitCode : Nat
  printed : List String
  crawlStarted : Bool
deriving DecidableEq, Repr

/-- `main` (lines 241-252) plus the `asyncio.run` entry (lines 254-255):
`sys.exit(1)` inside `get_table_name` terminates the process with status
1; an empty sitemap URL list prints `"No URLs found in sitemap"` and
`return`s normally (lines 247-249), so the process exits with status 0;
otherwise the crawl batch starts (and `main` returning normally also
exits with status 0). -/
def pyMain (argv : List String) (sitemapUrls : List String) : MainOutcome :=
  match get_table_name argv with
  | .error (msgs, code) => { exitCode := code, printed := msgs, crawlStarted := false }
  | .ok table_name =>
      if sitemapUrls.isEmpty then
        { exitCode := 0, printed := ["No URLs found in sitemap"], crawlStarted := false }
      else
        { exitCode := 0
          printed := ["Starting crawl for " ++ table_name]
          crawlStarted := true }

/-- The all-whitespace input of the C8 counterexample. -/
def spaceText : List Char := List.replicate 8 ' '

/-- Concrete chunker input for the forward-progress regression test:
`"```" + "x" * 4999`. -/
def progressText : List Char := "```".toList ++ List.replicate 4999 'x'

/-- Concrete chunker input refuting the paragraph-to-sentence
fallthrough reading: in the first window of size 10 the last `"\n\n"`
is at index 1 (at 30% = 3 or before, not qualifying) and the last
`". "` is at index 4 (past 30%). -/
def shadowText : List Char := "a\n\nb. cdefXYZ".toList

open scoped List

open scoped List

/-! ### Basic facts about occurrences, `rfindPos`, and `pyStrip` -/

theorem occursAt_bound {pat s : List Char} {i : Nat}
    (hp : pat ≠ []) (h : occursAt pat s i = true) : i + pat.length ≤ s.length := by
  have he : (s.drop i).take pat.length = pat := by
    simpa [occursAt] using h
  have hlen : min pat.length (s.length - i) = pat.length := by
    have := congrArg List.length he
    simpa using this
  have h2 : 0 < pat.length := List.length_pos.mpr hp
  omega

theorem rfindPos_occurs {pat s : List Char} {i : Nat}
    (h : rfindPos pat s = some i) : occursAt pat s i = true := by
  have hm : i ∈ (List.range (s.length + 1)).filter (fun j => occursAt pat s j) :=
    List.mem_of_getLast?_eq_some h
  exact (List.mem_filter.mp hm).2

theorem rfindPos_bound {pat s : List Char} {i : Nat}
    (hp : pat ≠ []) (h : rfindPos pat s = some i) : i + pat.length ≤ s.length :=
  occursAt_bound hp (rfindPos_occurs h)

theorem pyStrip_sublist (s : List Char) : pyStrip s <+ s := by
  have h1 : (s.dropWhile isPySpace).reverse.dropWhile isPySpace <+
      (s.dropWhile isPySpace).reverse := List.dropWhile_sublist _
  have h2 : pyStrip s <+ s.dropWhile isPySpace := by
    have := List.reverse_sublist.mpr h1
    simpa [pyStrip] using this
  exact h2.trans (List.dropWhile_sublist _)

theorem length_pyStrip_le (s : List Char) : (pyStrip s).length ≤ s.length :=
  (pyStrip_sublist s).length_le

theorem filter_dropWhile_isPySpace (s : List Char) :
    (s.dropWhile isPySpace).filter (fun c => !isPySpace c) =
      s.filter (fun c => !isPySpace c) := by
  induction s with
  | nil => rfl
  | cons a l ih =>
    by_cases ha : isPySpace a
    · simp [List.dropWhile_cons, ha, ih]
    · simp [List.dropWhile_cons, ha]

theorem filter_pyStrip (s : List Char) :
    (pyStrip s).filter (fun c => !isPySpace c) = s.filter (fun c => !isPySpace c) := by
  unfold pyStrip
  rw [List.filter_reverse, filter_dropWhile_isPySpace, List.filter_reverse,
    List.reverse_reverse, filter_dropWhile_isPySpace]

theorem filter_sublist_pyStrip (s : List Char) :
    s.filter (fun c => !isPySpace c) <+ pyStrip s := by
  rw [← filter_pyStrip]
  exact List.filter_sublist _

theorem pyStrip_eq_nil {s : List Char} (h : ∀ c ∈ s, isPySpace c = true) :
    pyStrip s = [] := by
  have h1 : s.dropWhile isPySpace = [] := List.dropWhile_eq_nil_iff.mpr h
  simp [pyStrip, h1]

/-! ### Window and `chunkEnd` bounds -/

theorem length_window {text : List Char} {size start : Nat}
    (h : start + size < text.length) :
    (pySlice text start (start + size)).length = size := by
  simp only [pySlice, List.length_take, List.length_drop]
  omega

theorem paraSentEnd_le {size start : Nat} {chunk : List Char}
    (hlen : chunk.length = size) : paraSentEnd size start chunk ≤ start + size := by
  unfold paraSentEnd
  rcases hpara : rfindPos paraP chunk with _ | lb
  · rcases hsent : rfindPos sentP chunk with _ | lp
    · simp only [hpara, hsent]
      omega
    · have hb := rfindPos_bound (by decide : sentP ≠ []) hsent
      have h2 : lp + 2 ≤ size := by
        simp only [sentP] at hb
        simp at hb
        omega
      simp only [hpara, hsent]
      split <;> omega
  · have hb := rfindPos_bound (by decide : paraP ≠ []) hpara
    have h2 : lb + 2 ≤ size := by
      simp only [paraP] at hb
      simp at hb
      omega
    simp only [hpara]
    split <;> omega

theorem chunkEnd_le {text : List Char} {size start : Nat}
    (h : start + size < text.length) : chunkEnd text size start ≤ start + size := by
  have hw : (pySlice text start (start + size)).length = size := length_window h
  unfold chunkEnd
  rcases hf : rfindPos fenceP (pySlice text start (start + size)) with _ | cb
  · simp only [hf]
    exact paraSentEnd_le hw
  · have hb := rfindPos_bound (by decide : fenceP ≠ []) hf
    have h3 : cb + 3 ≤ size := by
      simp only [fenceP] at hb
      simp at hb
      omega
    simp only [hf]
    split
    · omega
    · exact paraSentEnd_le hw

theorem paraSentEnd_ge {size start : Nat} (chunk : List Char) :
    start + 1 ≤ paraSentEnd size start chunk ∨ paraSentEnd size start chunk = start + size := by
  unfold paraSentEnd
  rcases hpara : rfindPos paraP chunk with _ | lb
  · rcases hsent : rfindPos sentP chunk with _ | lp
    · right; rfl
    · simp only [hsent]
      split
      · left; omega
      · right; rfl
  · simp only [hpara]
    split
    · left
      rename_i hcond
      omega
    · right; rfl

theorem chunkEnd_ge {text : List Char} {size start : Nat}
    (hs : 0 < size) : start + 1 ≤ chunkEnd text size start := by
  have haux : ∀ chunk, start + 1 ≤ paraSentEnd size start chunk := by
    intro chunk
    rcases @paraSentEnd_ge size start chunk with h | h
    · exact h
    · omega
  unfold chunkEnd
  rcases hf : rfindPos fenceP (pySlice text start (start + size)) with _ | cb
  · simp only [hf]
    exact haux _
  · simp only [hf]
    split
    · omega
    · exact haux _

theorem max_eq_chunkEnd {text : List Char} {size start : Nat} (hs : 0 < size) :
    max (start + 1) (chunkEnd text size start) = chunkEnd text size start := by
  have := @chunkEnd_ge text size start hs
  omega


/-! ### Unfolding lemmas for the `chunk_text` loop -/

theorem chunkLoop_of_le (text : List Char) (size start : Nat) (h : text.length ≤ start) :
    chunkLoop text size start = [] := by
  rw [chunkLoop]
  simp [Nat.not_lt.mpr h]

theorem chunkLoop_last (text : List Char) (size start : Nat)
    (h1 : start < text.length) (h2 : text.length ≤ start + size) :
    chunkLoop text size start = [pyStrip (text.drop start)] := by
  rw [chunkLoop]
  simp [h1, h2]

theorem chunkLoop_step (text : List Char) (size start : Nat)
    (h1 : start < text.length) (h2 : start + size < text.length) :
    chunkLoop text size start =
      if pyStrip (pySlice text start (chunkEnd text size start)) = [] then
        chunkLoop text size (max (start + 1) (chunkEnd text size start))
      else
        pyStrip (pySlice text start (chunkEnd text size start)) ::
          chunkLoop text size (max (start + 1) (chunkEnd text size start)) := by
  conv_lhs => rw [chunkLoop]
  simp [h1, Nat.not_le.mpr h2]

/-! ### Loop invariants -/

theorem chunkLoop_ne_nil_aux (text : List Char) (size : Nat) (hs : 0 < size) :
    ∀ n start, text.length - start ≤ n → start < text.length →
      chunkLoop text size start ≠ [] := by
  intro n
  induction n with
  | zero =>
      intro start h1 h2
      omega
  | succ n ih =>
      intro start h1 h2
      by_cases hlast : text.length ≤ start + size
      · rw [chunkLoop_last text size start h2 hlast]
        simp
      · push_neg at hlast
        rw [chunkLoop_step text size start h2 hlast]
        rw [max_eq_chunkEnd hs]
        have he1 := @chunkEnd_ge text size start hs
        have he2 := chunkEnd_le hlast
        split
        · exact ih (chunkEnd text size start) (by omega) (by omega)
        · simp

theorem chunkLoop_cover_aux (text : List Char) (size : Nat) (hs : 0 < size) :
    ∀ n start, text.length - start ≤ n →
      (chunkLoop text size start).flatten <+ text.drop start ∧
      (text.drop start).filter (fun c => !isPySpace c) <+
        (chunkLoop text size start).flatten := by
  intro n
  induction n with
  | zero =>
      intro start h1
      rw [chunkLoop_of_le text size start (by omega),
        List.drop_eq_nil_of_le (by omega)]
      simp
  | succ n ih =>
      intro start h1
      by_cases h2 : start < text.length
      · by_cases hlast : text.length ≤ start + size
        · rw [chunkLoop_last text size start h2 hlast]
          simp only [List.flatten_cons, List.flatten_nil, List.append_nil]
          exact ⟨pyStrip_sublist _, filter_sublist_pyStrip _⟩
        · push_neg at hlast
          rw [chunkLoop_step text size start h2 hlast, max_eq_chunkEnd hs]
          have he1 := @chunkEnd_ge text size start hs
          have he2 := chunkEnd_le hlast
          obtain ⟨ihA, ihB⟩ := ih (chunkEnd text size start) (by omega)
          have hsplit : text.drop start =
              pySlice text start (chunkEnd text size start) ++
                text.drop (chunkEnd text size start) := by
            have hd : (text.drop start).drop (chunkEnd text size start - start) =
                text.drop (chunkEnd text size start) := by
              rw [List.drop_drop]
              congr 1
              omega
            calc text.drop start
                = (text.drop start).take (chunkEnd text size start - start) ++
                    (text.drop start).drop (chunkEnd text size start - start) :=
                  (List.take_append_drop _ _).symm
              _ = _ := by rw [hd]; rfl
          have hflat :
              (if pyStrip (pySlice text start (chunkEnd text size start)) = [] then
                  chunkLoop text size (chunkEnd text size start)
                else
                  pyStrip (pySlice text start (chunkEnd text size start)) ::
                    chunkLoop text size (chunkEnd text size start)).flatten =
                pyStrip (pySlice text start (chunkEnd text size start)) ++
                  (chunkLoop text size (chunkEnd text size start)).flatten := by
            split
            · rename_i hnil
              rw [hnil]
              rfl
            · rfl
          rw [hflat, hsplit]
          constructor
          · exact (pyStrip_sublist _).append ihA
          · rw [List.filter_append]
            exact (filter_sublist_pyStrip _).append ihB
      · rw [chunkLoop_of_le text size start (by omega),
          List.drop_eq_nil_of_le (by omega)]
        simp

theorem chunkLoop_length_le_aux (text : List Char) (size : Nat) (hs : 0 < size) :
    ∀ n start, text.length - start ≤ n →
      ∀ c ∈ chunkLoop text size start, c.length ≤ size := by
  intro n
  induction n with
  | zero =>
      intro start h1 c hc
      rw [chunkLoop_of_le text size start (by omega)] at hc
      cases hc
  | succ n ih =>
      intro start h1 c hc
      by_cases h2 : start < text.length
      · by_cases hlast : text.length ≤ start + size
        · rw [chunkLoop_last text size start h2 hlast] at hc
          have : c = pyStrip (text.drop start) := by simpa using hc
          subst this
          have := length_pyStrip_le (text.drop start)
          simp only [List.length_drop] at this
          omega
        · push_neg at hlast
          rw [chunkLoop_step text size start h2 hlast, max_eq_chunkEnd hs] at hc
          have he1 := @chunkEnd_ge text size start hs
          have he2 := chunkEnd_le hlast
          have hlen : (pyStrip (pySlice text start (chunkEnd text size start))).length ≤
              size := by
            have hp := length_pyStrip_le (pySlice text start (chunkEnd text size start))
            have hq : (pySlice text start (chunkEnd text size start)).length ≤ size := by
              simp only [pySlice, List.length_take, List.length_drop]
              omega
            omega
          split at hc
          · exact ih (chunkEnd text size start) (by omega) c hc
          · rcases List.mem_cons.mp hc with hc1 | hc2
            · subst hc1
              exact hlen
            · exact ih (chunkEnd text size start) (by omega) c hc2
      · rw [chunkLoop_of_le text size start (by omega)] at hc
        cases hc

theorem chunkLoop_getLast_space_aux (text : List Char) (size : Nat) (hs : 0 < size)
    (hsp : ∀ c ∈ text, isPySpace c = true) :
    ∀ n start, text.length - start ≤ n → start < text.length →
      (chunkLoop text size start).getLast? = some [] := by
  intro n
  induction n with
  | zero =>
      intro start h1 h2
      omega
  | succ n ih =>
      intro start h1 h2
      by_cases hlast : text.length ≤ start + size
      · rw [chunkLoop_last text size start h2 hlast]
        have : pyStrip (text.drop start) = [] :=
          pyStrip_eq_nil (fun c hc => hsp c (List.mem_of_mem_drop hc))
        rw [this]
        rfl
      · push_neg at hlast
        rw [chunkLoop_step text size start h2 hlast, max_eq_chunkEnd hs]
        have he1 := @chunkEnd_ge text size start hs
        have he2 := chunkEnd_le hlast
        have hnil : pyStrip (pySlice text start (chunkEnd text size start)) = [] :=
          pyStrip_eq_nil (fun c hc =>
            hsp c (List.mem_of_mem_drop (List.mem_of_mem_take hc)))
        rw [if_pos hnil]
        exact ih (chunkEnd text size start) (by omega) (by omega)

theorem sum_le_length_mul {l : List Nat} {k : Nat} (h : ∀ x ∈ l, x ≤ k) :
    l.sum ≤ l.length * k := by
  induction l with
  | nil => simp
  | cons a l ih =>
      have ha := h a (List.mem_cons_self a l)
      have hl := ih (fun x hx => h x (List.mem_cons_of_mem a hx))
      simp only [List.sum_cons, List.length_cons]
      calc a + l.sum ≤ k + l.length * k := by omega
        _ = (l.length + 1) * k := by ring

theorem chunkEnd_of_fence_not_qualifies {text : List Char} {size start : Nat}
    (hq : fenceQualifies size (pySlice text start (start + size)) = false) :
    chunkEnd text size start =
      paraSentEnd size start (pySlice text start (start + size)) := by
  unfold chunkEnd
  unfold fenceQualifies at hq
  rcases hf : rfindPos fenceP (pySlice text start (start + size)) with _ | cb
  · simp only [hf]
  · simp only [hf] at hq
    simp only [hf]
    rw [if_neg]
    simpa using hq

/-! ### Concrete evaluations of `chunk_text` (the loop is a well-founded
recursion, so concrete runs are computed by unrolling its equations) -/

theorem chunk_text_small : chunk_text "ab".toList 5 = ["ab".toList] := by
  unfold chunk_text
  rw [chunkLoop_last "ab".toList 5 0 (by decide) (by decide)]
  decide

theorem chunk_text_spaces : chunk_text spaceText 2 = [[]] := by
  unfold chunk_text
  rw [chunkLoop_step _ _ _ (by decide) (by decide),
    show chunkEnd spaceText 2 0 = 2 from by decide,
    if_pos (by decide : pyStrip (pySlice spaceText 0 2) = []),
    show max (0 + 1) 2 = 2 from by decide]
  rw [chunkLoop_step _ _ _ (by decide) (by decide),
    show chunkEnd spaceText 2 2 = 4 from by decide,
    if_pos (by decide : pyStrip (pySlice spaceText 2 4) = []),
    show max (2 + 1) 4 = 4 from by decide]
  rw [chunkLoop_step _ _ _ (by decide) (by decide),
    show chunkEnd spaceText 2 4 = 6 from by decide,
    if_pos (by decide : pyStrip (pySlice spaceText 4 6) = []),
    show max (4 + 1) 6 = 6 from by decide]
  rw [chunkLoop_last _ _ _ (by decide) (by decide)]
  decide

theorem chunk_text_shadow :
    chunk_text shadowText 10 = ["a\n\nb. cdef".toList, "XYZ".toList] := by
  unfold chunk_text
  rw [chunkLoop_step _ _ _ (by decide) (by decide),
    show chunkEnd shadowText 10 0 = 10 from by decide,
    if_neg (by decide : ¬ pyStrip (pySlice shadowText 0 10) = []),
    show max (0 + 1) 10 = 10 from by decide]
  rw [chunkLoop_last _ _ _ (by decide) (by decide)]
  decide

/-! ### Claim theorems -/

/-- C1 (code_bug evidence): with both backends failing, `process_chunk`
does return a populated chunk with a 1536-dimension zero embedding, but
its `title`/`summary` fields are the dict KEYS `"title"`/`"summary"`
(line 120 tuple-unpacks the returned dict, which iterates keys), not the
placeholder strings the claim states. -/
theorem claim1_placeholder_keys_bug :
    process_chunk .fail .fail "hello" 0 "http://u" "t0" =
      some { url := "http://u", chunk_number := 0, title := "title",
             summary := "summary", content := "hello",
             metadata := { source := "python_uv_docs", url := "http://u",
                           chunk_number := 0, timestamp := "t0" },
             embedding := List.replicate 1536 0 } ∧
    (("title" : String) == "Error processing title") = false ∧
    (("summary" : String) == "Error processing summary") = false := by
  refine ⟨rfl, ?_, ?_⟩ <;> decide

/-- C2 (counterexample): in the first window of `shadowText` with
`targetSize = 10` there is no code fence, the last blank-line boundary is
at index 1 (not past 30%), and the last ". " is at index 4 (past 30%);
the claim predicts a cut at `0 + 4 + 1 = 5`, but the code hard-cuts at
`start + size = 10`, because the paragraph `elif` branch is taken and the
sentence branch is never reached. -/
theorem claim2_counterexample :
    rfindPos fenceP (pySlice shadowText 0 10) = none ∧
    rfindPos paraP (pySlice shadowText 0 10) = some 1 ∧ 10 * 1 ≤ 3 * 10 ∧
    rfindPos sentP (pySlice shadowText 0 10) = some 4 ∧ 3 * 10 < 10 * 4 ∧
    chunkEnd shadowText 10 0 = 10 ∧ 0 + 4 + 1 < chunkEnd shadowText 10 0 ∧
    chunk_text shadowText 10 = ["a\n\nb. cdef".toList, "XYZ".toList] := by
  refine ⟨by decide, by decide, by decide, by decide, by decide, by decide, by decide, ?_⟩
  exact chunk_text_shadow

/-- C2 (amended): under the claim's hypotheses (no qualifying code
fence, a blank-line boundary present whose last occurrence is at or
before 30% of `targetSize`, a sentence boundary past 30%), the chunker
does NOT break at the sentence boundary: the paragraph branch is taken,
its threshold fails, and the cut is the hard cut at `start + targetSize`. -/
theorem claim2_amended (text : List Char) (size start lb lp : Nat)
    (hfence : fenceQualifies size (pySlice text start (start + size)) = false)
    (hpara : rfindPos paraP (pySlice text start (start + size)) = some lb)
    (hlb : 10 * lb ≤ 3 * size)
    ( _hsent : rfindPos sentP (pySlice text start (start + size)) = some lp)
    ( _hlp : 3 * size < 10 * lp) :
    chunkEnd text size start = start + size := by
  rw [chunkEnd_of_fence_not_qualifies hfence]
  unfold paraSentEnd
  simp only [hpara]
  rw [if_neg]
  omega

theorem claim2_amended_witness :
    fenceQualifies 10 (pySlice shadowText 0 (0 + 10)) = false ∧
    rfindPos paraP (pySlice shadowText 0 (0 + 10)) = some 1 ∧
    10 * 1 ≤ 3 * 10 ∧
    rfindPos sentP (pySlice shadowText 0 (0 + 10)) = some 4 ∧
    3 * 10 < 10 * 4 ∧
    chunkEnd shadowText 10 0 = 0 + 10 :=
  ⟨by decide, by decide, by decide, by decide, by decide,
   claim2_amended shadowText 10 0 1 4 (by decide) (by decide) (by decide)
     (by decide) (by decide)⟩

/-- C3 (counterexample): a completion backend that succeeds with a JSON
object of three keys makes the tuple unpacking of line 120 raise
`ValueError`, which the `except` of lines 137-139 converts to
`return None` — so `process_chunk` does not always return a populated
chunk. -/
theorem claim3_counterexample :
    process_chunk (.ok [("title", "T"), ("summary", "S"), ("extra", "E")])
      (.ok []) "some chunk" 0 "http://u" "t0" = none := rfl

/-- C3 (amended): `process_chunk` never raises (it is a total function
of the backend outcomes), and it returns a populated chunk exactly when
the title/summary mapping obtained from the completion backend has
exactly two entries — in particular always when that backend fails
(the placeholder dict has two entries) — and `None` otherwise. -/
theorem claim3_amended (cr : CompletionResult) (er : EmbeddingResult)
    (chunk : String) (n : Nat) (url ts : String) :
    (process_chunk cr er chunk n url ts).isSome = true ↔
      (get_title_and_summary cr).length = 2 := by
  cases cr with
  | fail => simp [process_chunk, get_title_and_summary]
  | ok obj =>
      rcases obj with _ | ⟨⟨a, b⟩, _ | ⟨⟨c, d⟩, _ | ⟨⟨e, f⟩, rest⟩⟩⟩ <;>
        simp [process_chunk, get_title_and_summary]

/-- C4: chunk numbers assigned by the `enumerate` loop of
`process_and_store_document` are `0, 1, 2, …` in split order, and the
concatenation of the emitted chunks is the original text with only
whitespace characters removed, in order: it is a sublist of the text,
and every non-whitespace character of the text survives into it in
order. -/
theorem claim4_numbering_and_cover (text : List Char) (size : Nat) (hs : 0 < size) :
    (ingest_pairs text size).map Prod.fst = List.range (chunk_text text size).length ∧
    (chunk_text text size).flatten <+ text ∧
    text.filter (fun c => !isPySpace c) <+ (chunk_text text size).flatten := by
  refine ⟨?_, ?_, ?_⟩
  · simp [ingest_pairs]
  · have h := (chunkLoop_cover_aux text size hs text.length 0 (by omega)).1
    simpa [chunk_text] using h
  · have h := (chunkLoop_cover_aux text size hs text.length 0 (by omega)).2
    simpa [chunk_text] using h

theorem claim4_witness :
    (0 : Nat) < 2 ∧
    ((ingest_pairs "ab".toList 2).map Prod.fst =
        List.range (chunk_text "ab".toList 2).length ∧
      (chunk_text "ab".toList 2).flatten <+ "ab".toList ∧
      ("ab".toList).filter (fun c => !isPySpace c) <+
        (chunk_text "ab".toList 2).flatten) :=
  ⟨by decide, claim4_numbering_and_cover "ab".toList 2 (by decide)⟩

/-- C5 (counterexample): with the table argument present and an empty
sitemap URL list, the failure is logged and the crawl does not start,
but `main` returns normally, so the process exit status is 0 — not a
non-zero status reflecting the fatal/startup failure as the claim
states. -/
theorem claim5_counterexample :
    (pyMain ["crawl_pydantic_ai_docs.py", "site_pages"] []).exitCode = 0 ∧
    (pyMain ["crawl_pydantic_ai_docs.py", "site_pages"] []).crawlStarted = false ∧
    (pyMain ["crawl_pydantic_ai_docs.py", "site_pages"] []).printed =
      ["No URLs found in sitemap"] :=
  ⟨rfl, rfl, rfl⟩

/-- C5 (amended): a missing table-name argument prints the usage lines
and exits with status 1; with the argument present the process always
exits with status 0, and an empty sitemap URL list merely logs
`"No URLs found in sitemap"` and does not start the crawl. -/
theorem claim5_amended (argv urls : List String) :
    (argv.length < 2 →
      pyMain argv urls =
        { exitCode := 1, printed := usageLines, crawlStarted := false }) ∧
    (2 ≤ argv.length →
      (pyMain argv urls).exitCode = 0 ∧
      (urls = [] →
        (pyMain argv urls).crawlStarted = false ∧
        (pyMain argv urls).printed = ["No URLs found in sitemap"])) := by
  constructor
  · intro h
    simp [pyMain, get_table_name, h]
  · intro h
    have h2 : ¬ argv.length < 2 := by omega
    cases urls with
    | nil => simp [pyMain, get_table_name, h2]
    | cons u us => simp [pyMain, get_table_name, h2]

theorem claim5_amended_witness :
    pyMain ["p"] [] = { exitCode := 1, printed := usageLines, crawlStarted := false } ∧
    (pyMain ["p", "t"] []).exitCode = 0 ∧
    (pyMain ["p", "t"] []).crawlStarted = false ∧
    (pyMain ["p", "t"] []).printed = ["No URLs found in sitemap"] :=
  ⟨(claim5_amended ["p"] []).1 (by decide),
   ((claim5_amended ["p", "t"] []).2 (by decide)).1,
   (((claim5_amended ["p", "t"] []).2 (by decide)).2 rfl).1,
   (((claim5_amended ["p", "t"] []).2 (by decide)).2 rfl).2⟩

/-- C6: the loop of `chunk_text` always makes forward progress — the
next offset `max (start + 1) end` strictly exceeds `start` for every
text, size and offset (even when the computed `end` equals `start`) —
and the regression input  three backticks followed by 4999 x characters
with `targetSize = 100` yields at least one chunk (the function is total
by construction, so it terminates on every input). -/
theorem claim6_progress :
    (∀ (text : List Char) (size start : Nat),
        start < max (start + 1) (chunkEnd text size start)) ∧
    0 < (chunk_text progressText 100).length := by
  constructor
  · intro text size start
    have h := le_max_left (start + 1) (chunkEnd text size start)
    omega
  · have hlen : ("```".toList).length = 3 := by decide
    have hpos : 0 < progressText.length := by
      simp only [progressText, List.length_append, List.length_replicate, hlen]
      omega
    have hne : chunkLoop progressText 100 0 ≠ [] :=
      chunkLoop_ne_nil_aux progressText 100 (by omega) progressText.length 0
        (by omega) hpos
    unfold chunk_text
    exact List.length_pos.mpr hne

/-- C7: every chunk emitted by `chunk_text` has length at most the
target size: a candidate end never exceeds `start + size`, boundary
search only moves it earlier, and stripping only shortens the
substring. -/
theorem claim7_chunk_size_bound (text : List Char) (size : Nat) (hs : 0 < size) :
    ∀ c, c ∈ chunk_text text size → c.length ≤ size := by
  intro c hc
  exact chunkLoop_length_le_aux text size hs text.length 0 (by omega) c hc

theorem claim7_witness :
    "ab".toList ∈ chunk_text "ab".toList 5 ∧ ("ab".toList).length ≤ 5 :=
  ⟨by rw [chunk_text_small]; exact List.mem_cons_self _ _,
   claim7_chunk_size_bound "ab".toList 5 (by decide) "ab".toList
     (by rw [chunk_text_small]; exact List.mem_cons_self _ _)⟩

/-- C8 (counterexample): on eight spaces with `targetSize = 2` the
chunker emits a single (empty) chunk, so
`chunk count × targetSize = 2` is less than
`length / targetSize - 1 = 3`: the claimed bound fails because
whitespace-only windows are dropped. -/
theorem claim8_counterexample :
    chunk_text spaceText 2 = [[]] ∧
    (chunk_text spaceText 2).length * 2 < spaceText.length / 2 - 1 := by
  refine ⟨chunk_text_spaces, ?_⟩
  rw [chunk_text_spaces]
  decide

/-- C8 (amended): with the text length replaced by the number of
non-whitespace characters, the bound holds:
`chunk count × targetSize ≥ (non-whitespace count) / targetSize - 1`. -/
theorem claim8_amended (text : List Char) (size : Nat) (hs : 0 < size) :
    (text.filter (fun c => !isPySpace c)).length / size - 1 ≤
      (chunk_text text size).length * size := by
  have hcov := (chunkLoop_cover_aux text size hs text.length 0 (by omega)).2
  have hlen : (text.filter (fun c => !isPySpace c)).length ≤
      ((chunk_text text size).flatten).length := by
    have h := hcov.length_le
    simpa [chunk_text] using h
  have hflat : ((chunk_text text size).flatten).length ≤
      (chunk_text text size).length * size := by
    rw [List.length_flatten]
    have hsum : ((chunk_text text size).map List.length).sum ≤
        ((chunk_text text size).map List.length).length * size := by
      apply sum_le_length_mul
      intro x hx
      obtain ⟨c, hc, rfl⟩ := List.mem_map.mp hx
      exact chunkLoop_length_le_aux text size hs text.length 0 (by omega) c hc
    simpa using hsum
  have hdiv : (text.filter (fun c => !isPySpace c)).length / size ≤
      (text.filter (fun c => !isPySpace c)).length := Nat.div_le_self _ _
  omega

theorem claim8_amended_witness :
    (0 : Nat) < 2 ∧
    ("ab".toList.filter (fun c => !isPySpace c)).length / 2 - 1 ≤
      (chunk_text "ab".toList 2).length * 2 :=
  ⟨by decide, claim8_amended "ab".toList 2 (by decide)⟩

/-- C10: on any nonempty all-whitespace text the final remainder chunk
is appended after stripping with no non-emptiness check, so the returned
sequence ends with the empty string. -/
theorem claim10_trailing_empty_chunk (text : List Char) (size : Nat)
    (hne : text ≠ []) (hsp : ∀ c ∈ text, isPySpace c = true) (hs : 0 < size) :
    (chunk_text text size).getLast? = some [] := by
  unfold chunk_text
  exact chunkLoop_getLast_space_aux text size hs hsp text.length 0 (by omega)
    (List.length_pos.mpr hne)

theorem claim10_witness :
    ([' '] : List Char) ≠ [] ∧
    (∀ c ∈ ([' '] : List Char), isPySpace c = true) ∧
    (0 : Nat) < 1 ∧
    (chunk_text [' '] 1).getLast? = some [] :=
  ⟨by decide, by decide, by decide,
   claim10_trailing_empty_chunk [' '] 1 (by decide) (by decide) (by decide)⟩


end Crawl
